import Mathlib

/-!
Verification of the truss import / geometry / report core of `HW9SH/Truss_stem.py`.

The Python classes are embedded shallowly:

* `Position` (the 3-component vector class) becomes a structure over `ℝ`;
  its float arithmetic is modelled by exact real arithmetic.
* `Node`, `Link`, `Material`, `TrussModel` become plain structures; Python
  `None` fields become `Option` values.
* The line-oriented importer (`TrussController.ImportFromFile` and its
  `importTitle` / `importMaterial` / `importSF` / `importLink` / `importNode`
  helpers) becomes a function over `List String`; Python string operations
  (`strip`, `lower`, `split`, `find`) are reimplemented over `List Char`.
  A Python exception escaping a helper is modelled as `none`.
* `TrussView.displayReport` is modelled as the longest-link record it writes
  into the line-edit widgets, `none` modelling an uncaught exception.
-/

/-! ## Position (the vector class) -/

/-- Embeds the Python `Position` class: a 3-component point with float
(modelled as real) components. -/
structure Position where
  x : ℝ
  y : ℝ
  z : ℝ

/-- Embeds `Position.__sub__`: componentwise difference. -/
instance : Sub Position :=
  ⟨fun a b => ⟨a.x - b.x, a.y - b.y, a.z - b.z⟩⟩

theorem Position.sub_def (a b : Position) :
    a - b = ⟨a.x - b.x, a.y - b.y, a.z - b.z⟩ := rfl

/-- Embeds `Position.mag`: `(x**2 + y**2 + z**2)**0.5`. -/
noncomputable def Position.mag (p : Position) : ℝ :=
  Real.sqrt (p.x ^ 2 + p.y ^ 2 + p.z ^ 2)

/-- Embeds `Position.__idiv__` with a scalar argument: divides every
component in place. -/
noncomputable def Position.idiv (p : Position) (s : ℝ) : Position :=
  ⟨p.x / s, p.y / s, p.z / s⟩

/-- Embeds `Position.normalize`: returns unchanged if `mag() <= 0.0`,
otherwise divides each component by the magnitude via `__idiv__`. -/
noncomputable def Position.normalize (p : Position) : Position :=
  if p.mag ≤ 0 then p else p.idiv p.mag

/-- Embeds `Position.getAngleRad`: `0` when `mag() <= 0.0`, else
`acos(x/l)` for `y >= 0.0` and `2*pi - acos(x/l)` otherwise. -/
noncomputable def Position.getAngleRad (p : Position) : ℝ :=
  if p.mag ≤ 0 then 0
  else if 0 ≤ p.y then Real.arccos (p.x / p.mag)
  else 2 * Real.pi - Real.arccos (p.x / p.mag)

/-! ## Domain entities -/

/-- Embeds the Python `Node` class. -/
structure Node where
  name : String
  position : Position

/-- Embeds the Python `Link` class: endpoint node names plus the derived
`length` / `angleRad` fields (`None` until geometry derivation runs). -/
structure Link where
  name : String
  node1_Name : String
  node2_Name : String
  length : Option ℝ
  angleRad : Option ℝ

/-- Embeds `Link.__init__`: the Python constructor takes `name`, `node1`,
`node2`, `length` and `angleRad` arguments (with defaults `""`, `"1"`,
`"2"`, `None`, `None`) but its body assigns `self.name = ""`,
`self.length = None` and `self.angleRad = None`, so only the two node
names take effect. -/
def Link.init (name : String := "") (node1 : String := "1")
    (node2 : String := "2") (length : Option ℝ := none)
    (angleRad : Option ℝ := none) : Link :=
  ⟨"", node1, node2, none, none⟩

/-- Embeds `Link.__eq__`: compares the two endpoint node names, the length
and the angle; the own `name` field of the link is not compared. -/
def linkEq (a b : Link) : Prop :=
  a.node1_Name = b.node1_Name ∧ a.node2_Name = b.node2_Name ∧
    a.length = b.length ∧ a.angleRad = b.angleRad

/-- Embeds the Python `Material` class; unparsed fields are `None`. -/
structure Material where
  uts : Option ℝ
  ys : Option ℝ
  E : Option ℝ
  staticFactor : Option ℝ

/-- Embeds the Python `TrussModel` class. -/
structure TrussModel where
  title : Option String
  links : List Link
  nodes : List Node
  material : Material

/-- Embeds `TrussModel.__init__`: empty lists, `None` title, fresh
`Material()` whose fields are all `None`. -/
def TrussModel.init : TrussModel :=
  ⟨none, [], [], ⟨none, none, none, none⟩⟩

/-- Embeds `TrussController.hasNode`: linear scan of the node list by name. -/
def hasNode (m : TrussModel) (name : String) : Bool :=
  m.nodes.any fun n => n.name == name

/-- Embeds `TrussController.getNode`: first node with the given name,
`None` (here `none`) if absent. -/
def getNode (m : TrussModel) (name : String) : Option Node :=
  m.nodes.find? fun n => n.name == name

/-! ## Python string primitives, over `List Char` -/

/-- Drops leading whitespace, as the left half of Python `str.strip()`. -/
def trimL (l : List Char) : List Char :=
  l.dropWhile Char.isWhitespace

/-- Models Python `str.strip()` with no arguments: removes leading and
trailing whitespace. -/
def pyStrip (l : List Char) : List Char :=
  ((trimL l).reverse.dropWhile Char.isWhitespace).reverse

/-- Models Python `str.strip(c)` for a one-character argument: removes
leading and trailing copies of `c`. -/
def stripChar (c : Char) (l : List Char) : List Char :=
  ((l.dropWhile (· == c)).reverse.dropWhile (· == c)).reverse

/-- Models Python `str.lower()`. -/
def pyLower (l : List Char) : List Char :=
  l.map Char.toLower

/-- Whether `pat` occurs at the head of `l`. -/
def leadMatch : List Char → List Char → Bool
  | [], _ => true
  | _ :: _, [] => false
  | p :: ps, c :: cs => p == c && leadMatch ps cs

/-- Models Python `str.find(pat) >= 0`: `pat` occurs somewhere in `l`. -/
def containsSub (pat : List Char) : List Char → Bool
  | [] => pat.isEmpty
  | c :: cs => leadMatch pat (c :: cs) || containsSub pat cs

/-- Accumulator loop behind `pySplitWs`. -/
def splitWsAux : List Char → List Char → List (List Char)
  | [], acc => if acc.isEmpty then [] else [acc.reverse]
  | c :: rest, acc =>
    if c.isWhitespace then
      if acc.isEmpty then splitWsAux rest [] else acc.reverse :: splitWsAux rest []
    else splitWsAux rest (c :: acc)

/-- Models Python `str.split()` with no arguments: splits on whitespace
runs, producing no empty fields. -/
def pySplitWs (l : List Char) : List (List Char) :=
  splitWsAux l []

/-- Accumulator loop behind `pySplitOn`. -/
def splitOnAux (sep : Char) : List Char → List Char → List (List Char)
  | [], acc => [acc.reverse]
  | c :: rest, acc =>
    if c == sep then acc.reverse :: splitOnAux sep rest []
    else splitOnAux sep rest (c :: acc)

/-- Models Python `str.split(sep)` for a one-character separator: empty
fields are kept. -/
def pySplitOn (sep : Char) (l : List Char) : List (List Char) :=
  splitOnAux sep l []

/-- Numeric value of a digit string, most significant digit first. -/
def natOfDigits (l : List Char) : ℕ :=
  l.foldl (fun a c => 10 * a + (c.toNat - 48)) 0

/-- Whether every character is a decimal digit. -/
def allDigits (l : List Char) : Bool :=
  l.all fun c => c.isDigit

/-- Value of an unsigned decimal literal: digits with an optional decimal
point, at least one digit required. -/
def parseUnsigned (cs : List Char) : Option ℚ :=
  let ip := cs.takeWhile fun c => c != '.'
  match cs.dropWhile fun c => c != '.' with
  | [] =>
    if allDigits ip && !ip.isEmpty then some (natOfDigits ip : ℚ) else none
  | _ :: fp =>
    if allDigits ip && allDigits fp && !(ip.isEmpty && fp.isEmpty) then
      some ((natOfDigits ip : ℚ) + (natOfDigits fp : ℚ) / (10 : ℚ) ^ fp.length)
    else none

/-- Models the Python builtin `float(str)` on the plain decimal floats the
input format uses (spec section 6): surrounding whitespace, an optional
sign, digits and an optional decimal point; `none` models the `ValueError`
raised on anything else. -/
def parseFloat (s : List Char) : Option ℚ :=
  match pyStrip s with
  | '-' :: cs => (parseUnsigned cs).map fun q => -q
  | '+' :: cs => parseUnsigned cs
  | cs => parseUnsigned cs

/-! ## Importer (`TrussController`)

Each `import...` helper takes the raw line (Python re-reads `data[j]`) and
the current model, and returns `some` of the updated model, or `none` when
the Python code would raise (index error on a too-short line, `ValueError`
from `float`). -/

/-- The single-quote character stripped from titles. -/
def quoteChar : Char := Char.ofNat 39

/-- Embeds `TrussController.importTitle`: whitespace-splits the line, joins
tokens 1..3 with single spaces, strips surrounding single quotes, stores
the result as the title.  Fewer than four tokens make the Python unpacking
`A, B, C = parts[1:4]` raise, modelled as `none`. -/
def importTitle (m : TrussModel) (line : String) : Option TrussModel :=
  match pySplitWs (pyStrip line.data) with
  | _ :: a :: b :: c :: _ =>
    some { m with
      title := some (String.mk (stripChar quoteChar (a ++ ' ' :: b ++ ' ' :: c))) }
  | _ => none

/-- Embeds `TrussController.importMaterial`: tokens 1, 2, 3 of the
whitespace-split line, each stripped of commas, are parsed as floats into
`uts`, `ys`, `E`. -/
def importMaterial (m : TrussModel) (line : String) : Option TrussModel :=
  match pySplitWs (pyStrip line.data) with
  | _ :: p1 :: p2 :: p3 :: _ =>
    match parseFloat (stripChar ',' p1), parseFloat (stripChar ',' p2),
          parseFloat (stripChar ',' p3) with
    | some u, some y, some e =>
      some { m with material := { m.material with
        uts := some (u : ℝ), ys := some (y : ℝ), E := some (e : ℝ) } }
    | _, _, _ => none
  | _ => none

/-- Embeds `TrussController.importSF`: token 1 of the whitespace-split
line, stripped of commas, parsed as a float into `staticFactor`. -/
def importSF (m : TrussModel) (line : String) : Option TrussModel :=
  match pySplitWs (pyStrip line.data) with
  | _ :: p1 :: _ =>
    match parseFloat (stripChar ',' p1) with
    | some sf =>
      some { m with material := { m.material with staticFactor := some (sf : ℝ) } }
    | none => none
  | _ => none

/-- Embeds `TrussController.importLink`: tokens 1, 2, 3 of the
whitespace-split line (commas stripped) are the link name and the two node
names.  The link is appended only when no link of that name exists and
both nodes are already in the model; otherwise the line is silently
dropped. -/
def importLink (m : TrussModel) (line : String) : Option TrussModel :=
  match pySplitWs (pyStrip line.data) with
  | _ :: p1 :: p2 :: p3 :: _ =>
    if hasNode m (String.mk (stripChar ',' p2)) &&
        hasNode m (String.mk (stripChar ',' p3)) &&
        !(m.links.any fun l => l.name == String.mk (stripChar ',' p1)) then
      some { m with links := m.links ++
        [⟨String.mk (stripChar ',' p1), String.mk (stripChar ',' p2),
          String.mk (stripChar ',' p3), none, none⟩] }
    else some m
  | _ => none

/-- Embeds `TrussController.importNode`: comma-splits the line and strips
each field.  With at least four fields, field 1 is the name; if no node of
that name exists, fields 2 and 3 are parsed as floats into the
`x` and `y` of a new node (`z` stays at the `Position()` default `0`) and the node is
appended.  With fewer fields the line is reported and skipped. -/
def importNode (m : TrussModel) (line : String) : Option TrussModel :=
  match (pySplitOn ',' (pyStrip line.data)).map pyStrip with
  | _ :: p1 :: p2 :: p3 :: _ =>
    if hasNode m (String.mk p1) then some m
    else
      match parseFloat p2, parseFloat p3 with
      | some x, some y =>
        some { m with nodes := m.nodes ++
          [⟨String.mk p1, ⟨(x : ℝ), (y : ℝ), 0⟩⟩] }
      | _, _ => none
  | _ => some m

/-- Embeds the line dispatch inside `TrussController.ImportFromFile`: the
line is lowered and stripped for keyword matching; a leading `#` skips the
line, otherwise the first of `title` / `link` / `node` / `material` /
`static_factor` found anywhere in the line selects the import helper, and
a line matching nothing is ignored. -/
def processLine (m : TrussModel) (line : String) : Option TrussModel :=
  let lin := pyStrip (pyLower line.data)
  if leadMatch ['#'] lin then some m
  else if containsSub "title".data lin then importTitle m line
  else if containsSub "link".data lin then importLink m line
  else if containsSub "node".data lin then importNode m line
  else if containsSub "material".data lin then importMaterial m line
  else if containsSub "static_factor".data lin then importSF m line
  else some m

/-- Embeds the scan loop of `ImportFromFile`: lines are processed in order,
each exactly once; an exception (`none`) aborts the import. -/
def processLines : TrussModel → List String → Option TrussModel
  | m, [] => some m
  | m, line :: rest =>
    match processLine m line with
    | none => none
    | some m' => processLines m' rest

/-- Embeds the reset prologue of `ImportFromFile`: clears both entity
lists and the title, sets `uts`, `ys`, `E` to `None` and `staticFactor`
to `0`.  The result does not depend on the previous model state. -/
def resetModel (_m : TrussModel) : TrussModel :=
  ⟨none, [], [], ⟨none, none, none, some 0⟩⟩

/-- Embeds `TrussController.calcLinkVals`: for every link, looks up both
endpoint nodes; when both resolve, the displacement `node2 - node1` gives
the `length` of the link (the magnitude) and `angleRad` (its in-plane angle). -/
noncomputable def calcLinkVals (m : TrussModel) : TrussModel :=
  { m with links := m.links.map fun l =>
      match (if hasNode m l.node1_Name then getNode m l.node1_Name else none),
            (if hasNode m l.node2_Name then getNode m l.node2_Name else none) with
      | some n1, some n2 =>
        let r := n2.position - n1.position
        { l with length := some r.mag, angleRad := some r.getAngleRad }
      | _, _ => l }

/-- Embeds `TrussController.ImportFromFile` up to the model it builds:
reset, line scan, then geometry derivation.  The trailing view calls
(`displayReport`, `drawTruss`) only read the model and are modelled
separately by `displayReport`. -/
noncomputable def ImportFromFile (m : TrussModel) (data : List String) :
    Option TrussModel :=
  (processLines (resetModel m) data).map calcLinkVals

/-! ## Report formatter (`TrussView.displayReport`)

The Python method builds the report string, tracks the longest link while
iterating, sets the report text, and finally writes `longest.name`,
`longest.length`, `longest.node1_Name`, `longest.node2_Name` into the
line-edit widgets.  We model it by the longest-link record it writes;
`none` models an exception escaping the method: formatting a `None`
number with `{:0.2f}` (static factor, strengths, modulus, link length or
angle), comparing a `None` length with `>`, or dereferencing
`longest.name` when the model has no links and `longest` is still
`None`. -/

/-- One iteration of the longest-link loop: when no longest link is held
yet the current link is taken without comparison; otherwise
`l.length > longest.length` decides.  Lengths needed by the comparison
and the length and angle formatted into the summary line must be present,
otherwise the Python raises (`none`). -/
noncomputable def longestStep : Option Link → Link → Option (Option Link)
  | none, l =>
    match l.length, l.angleRad with
    | some _, some _ => some (some l)
    | _, _ => none
  | some lg, l =>
    match l.length, lg.length, l.angleRad with
    | some ll, some lgl, some _ => some (some (if lgl < ll then l else lg))
    | _, _, _ => none

/-- The longest-link loop over the whole link list. -/
noncomputable def longestFold : Option Link → List Link → Option (Option Link)
  | acc, [] => some acc
  | acc, l :: rest =>
    match longestStep acc l with
    | none => none
    | some acc2 => longestFold acc2 rest

/-- Embeds `TrussView.displayReport`: the four material numbers are
formatted with `{:0.2f}` (raising on `None`), the links are scanned for
the longest link, and the fields of the longest link are written out —
dereferencing `longest` raises when no link was seen. -/
noncomputable def displayReport (m : TrussModel) : Option Link :=
  m.material.staticFactor.bind fun _ =>
    m.material.uts.bind fun _ =>
      m.material.ys.bind fun _ =>
        m.material.E.bind fun _ =>
          (longestFold none m.links).bind fun longest => longest

/-! ## Concrete input fixtures -/

/-- Position with rational coordinates, exactly as the importer stores
parsed floats. -/
def posQ (a b : ℚ) : Position := ⟨(a : ℝ), (b : ℝ), 0⟩

/-- Two nodes at `(0,0)` and `(3,4)` followed by one link joining them. -/
def linesTriangle : List String :=
  ["node, A, 0, 0", "node, B, 3, 4", "link L1, A, B"]

/-- A link line that references nodes only defined afterwards. -/
def linesLinkFirst : List String :=
  ["link L1, A, B", "node, A, 0, 0", "node, B, 3, 4"]

/-- Two node lines with the same name and different positions. -/
def linesDupNode : List String :=
  ["node, A, 1, 2", "node, A, 3, 4"]

/-- A link of length 5. -/
def linkFive : Link := ⟨"L1", "A", "B", some 5, some 0⟩

/-- A link of length 10. -/
def linkTen : Link := ⟨"L2", "B", "C", some 10, some 0⟩

/-- A link of length 7. -/
def linkSeven : Link := ⟨"L3", "C", "D", some 7, some 0⟩

/-- A fully derived model holding links of lengths 5, 10 and 7. -/
def reportModel : TrussModel :=
  ⟨some "t", [linkFive, linkTen, linkSeven], [],
    ⟨some 1, some 2, some 3, some 4⟩⟩

/-! ## Structural lemmas about the importer -/

/-- `importTitle` never changes the node list. -/
theorem importTitle_nodes {m m' : TrussModel} {line : String}
    (h : importTitle m line = some m') : m'.nodes = m.nodes := by
  unfold importTitle at h
  split at h
  · cases h; rfl
  · cases h

/-- `importMaterial` never changes the node list. -/
theorem importMaterial_nodes {m m' : TrussModel} {line : String}
    (h : importMaterial m line = some m') : m'.nodes = m.nodes := by
  unfold importMaterial at h
  split at h
  · split at h <;> cases h <;> rfl
  · cases h

/-- `importSF` never changes the node list. -/
theorem importSF_nodes {m m' : TrussModel} {line : String}
    (h : importSF m line = some m') : m'.nodes = m.nodes := by
  unfold importSF at h
  split at h
  · split at h <;> cases h <;> rfl
  · cases h

/-- `importLink` never changes the node list. -/
theorem importLink_nodes {m m' : TrussModel} {line : String}
    (h : importLink m line = some m') : m'.nodes = m.nodes := by
  unfold importLink at h
  split at h
  · split at h <;> (cases h; rfl)
  · cases h

/-- `importNode` either leaves the node list alone or appends one node
whose name was not present. -/
theorem importNode_nodes {m m' : TrussModel} {line : String}
    (h : importNode m line = some m') :
    m'.nodes = m.nodes ∨
      ∃ n, m'.nodes = m.nodes ++ [n] ∧ hasNode m n.name = false := by
  unfold importNode at h
  split at h
  · split at h
    · cases h; exact Or.inl rfl
    · next hcond =>
      split at h
      · cases h
        refine Or.inr ⟨_, rfl, ?_⟩
        simpa using hcond
      · cases h
  · cases h; exact Or.inl rfl

/-- One dispatched line either leaves the node list alone or appends one
node with a fresh name. -/
theorem processLine_nodes {m m' : TrussModel} {line : String}
    (h : processLine m line = some m') :
    m'.nodes = m.nodes ∨
      ∃ n, m'.nodes = m.nodes ++ [n] ∧ hasNode m n.name = false := by
  unfold processLine at h
  dsimp only [] at h
  split_ifs at h
  · cases h; exact Or.inl rfl
  · exact Or.inl (importTitle_nodes h)
  · exact Or.inl (importLink_nodes h)
  · exact importNode_nodes h
  · exact Or.inl (importMaterial_nodes h)
  · exact Or.inl (importSF_nodes h)
  · cases h; exact Or.inl rfl

/-- Nodes present before a scan are still present, in place and
unchanged, afterwards: the node list only grows at the back. -/
theorem processLines_nodes_prefix :
    ∀ (data : List String) (m m' : TrussModel),
      processLines m data = some m' → m.nodes <+: m'.nodes := by
  intro data
  induction data with
  | nil =>
    intro m m' h
    cases h
    exact List.prefix_refl _
  | cons line rest ih =>
    intro m m' h
    unfold processLines at h
    cases hpl : processLine m line with
    | none => rw [hpl] at h; cases h
    | some m1 =>
      rw [hpl] at h
      have h' : processLines m1 rest = some m' := h
      rcases processLine_nodes hpl with he | ⟨n, hn, -⟩
      · rw [← he]
        exact ih m1 m' h'
      · have h1 : m.nodes <+: m1.nodes := by
          rw [hn]; exact ⟨[n], rfl⟩
        exact h1.trans (ih m1 m' h')

/-- A scan keeps node names duplicate-free. -/
theorem processLines_nodes_nodup :
    ∀ (data : List String) (m m' : TrussModel),
      processLines m data = some m' →
      (m.nodes.map Node.name).Nodup → (m'.nodes.map Node.name).Nodup := by
  intro data
  induction data with
  | nil =>
    intro m m' h hd
    cases h
    exact hd
  | cons line rest ih =>
    intro m m' h hd
    unfold processLines at h
    cases hpl : processLine m line with
    | none => rw [hpl] at h; cases h
    | some m1 =>
      rw [hpl] at h
      have h' : processLines m1 rest = some m' := h
      rcases processLine_nodes hpl with he | ⟨n, hn, hfresh⟩
      · exact ih m1 m' h' (by rwa [he])
      · refine ih m1 m' h' ?_
        rw [hn, List.map_append, List.nodup_append]
        refine ⟨hd, List.nodup_singleton _, ?_⟩
        intro a ha hb
        simp only [List.map_cons, List.map_nil, List.mem_singleton] at hb
        subst hb
        rw [List.mem_map] at ha
        obtain ⟨nd, hnd, hname⟩ := ha
        have hh : hasNode m n.name = true := by
          unfold hasNode
          rw [List.any_eq_true]
          exact ⟨nd, hnd, by rw [beq_iff_eq, hname]⟩
        rw [hfresh] at hh
        cases hh

/-! ## The longest-link loop -/

/-- Characterization of the longest-link loop from a held candidate: it
succeeds on fully derived links and returns the first link of maximal
length among the candidate and the remaining links (strict `>` keeps the
earlier link on ties). -/
theorem longestFold_max :
    ∀ (ls : List Link) (lg : Link) (L0 : ℝ), lg.length = some L0 →
    (∀ l ∈ ls, l.length.isSome ∧ l.angleRad.isSome) →
    ∃ res L pre post,
      longestFold (some lg) ls = some (some res) ∧
      res.length = some L ∧
      lg :: ls = pre ++ res :: post ∧
      L0 ≤ L ∧
      (∀ l ∈ ls, ∀ x, l.length = some x → x ≤ L) ∧
      (∀ l ∈ pre, ∀ x, l.length = some x → x < L) := by
  intro ls
  induction ls with
  | nil =>
    intro lg L0 hlg _
    exact ⟨lg, L0, [], [], rfl, hlg, rfl, le_refl _, by simp, by simp⟩
  | cons l rest ih =>
    intro lg L0 hlg hls
    obtain ⟨ll, hll⟩ :=
      Option.isSome_iff_exists.mp (hls l (List.mem_cons_self l rest)).1
    obtain ⟨la, hla⟩ :=
      Option.isSome_iff_exists.mp (hls l (List.mem_cons_self l rest)).2
    have hstep : longestStep (some lg) l = some (some (if L0 < ll then l else lg)) := by
      simp only [longestStep]
      rw [hll, hlg, hla]
    have hfold : longestFold (some lg) (l :: rest) =
        longestFold (some (if L0 < ll then l else lg)) rest := by
      simp only [longestFold]
      rw [hstep]
    have hrest : ∀ a ∈ rest, a.length.isSome ∧ a.angleRad.isSome :=
      fun a ha => hls a (List.mem_cons_of_mem _ ha)
    by_cases hc : L0 < ll
    · rw [if_pos hc] at hfold
      obtain ⟨res, L, pre, post, h1, h2, h3, h4, h5, h6⟩ := ih l ll hll hrest
      refine ⟨res, L, lg :: pre, post, ?_, h2, ?_, le_trans (le_of_lt hc) h4, ?_, ?_⟩
      · rw [hfold]; exact h1
      · rw [List.cons_append, ← h3]
      · intro a ha x hx
        rcases List.mem_cons.mp ha with hh | hh
        · subst hh
          rw [hll] at hx
          injection hx with hx'
          subst hx'
          exact h4
        · exact h5 a hh x hx
      · intro a ha x hx
        rcases List.mem_cons.mp ha with hh | hh
        · subst hh
          rw [hlg] at hx
          injection hx with hx'
          subst hx'
          exact lt_of_lt_of_le hc h4
        · exact h6 a hh x hx
    · rw [if_neg hc] at hfold
      push_neg at hc
      obtain ⟨res, L, pre, post, h1, h2, h3, h4, h5, h6⟩ := ih lg L0 hlg hrest
      cases pre with
      | nil =>
        simp only [List.nil_append] at h3
        injection h3 with h3a h3b
        refine ⟨res, L, [], l :: post, ?_, h2, ?_, h4, ?_, by simp⟩
        · rw [hfold]; exact h1
        · rw [List.nil_append, ← h3a, ← h3b]
        · intro a ha x hx
          rcases List.mem_cons.mp ha with hh | hh
          · subst hh
            rw [hll] at hx
            injection hx with hx'
            subst hx'
            exact le_trans hc h4
          · exact h5 a hh x hx
      | cons q pre' =>
        rw [List.cons_append] at h3
        injection h3 with h3a h3b
        have hlgpre : lg ∈ q :: pre' := by
          rw [← h3a]; exact List.mem_cons_self lg pre'
        have hlgL : L0 < L := h6 lg hlgpre L0 hlg
        refine ⟨res, L, lg :: l :: pre', post, ?_, h2, ?_, h4, ?_, ?_⟩
        · rw [hfold]; exact h1
        · rw [h3b]; simp [List.cons_append]
        · intro a ha x hx
          rcases List.mem_cons.mp ha with hh | hh
          · subst hh
            rw [hll] at hx
            injection hx with hx'
            subst hx'
            exact le_trans hc h4
          · exact h5 a hh x hx
        · intro a ha x hx
          rcases List.mem_cons.mp ha with hh | hh
          · subst hh
            rw [hlg] at hx
            injection hx with hx'
            subst hx'
            exact hlgL
          rcases List.mem_cons.mp hh with hh' | hh'
          · subst hh'
            rw [hll] at hx
            injection hx with hx'
            subst hx'
            exact lt_of_le_of_lt hc hlgL
          · exact h6 a (by rw [← h3a]; exact List.mem_cons_of_mem lg hh') x hx

/-! ## Claims about the report formatter -/

/-- C1: the claim that formatting a report for a model with zero links
completes without failure is FALSE of the code: with an empty link
sequence the loop leaves `longest = None` and `displayReport` then
executes `longest.name`, raising `AttributeError` (and when a material
number is still `None`, the `{:0.2f}` format raises even earlier) — so
the method always raises, modelled as `none`, for every model with zero
links. -/
theorem displayReport_empty_links (m : TrussModel) (h : m.links = []) :
    displayReport m = none := by
  unfold displayReport
  rw [h]
  cases m.material.staticFactor <;> cases m.material.uts <;>
    cases m.material.ys <;> cases m.material.E <;>
      simp [longestFold]

/-- Witness: a model with a fully populated material and no links makes
the report formatter raise. -/
theorem displayReport_empty_links_witness :
    displayReport ⟨some "t", [], [], ⟨some 1, some 2, some 3, some 0⟩⟩ = none :=
  displayReport_empty_links ⟨some "t", [], [], ⟨some 1, some 2, some 3, some 0⟩⟩ rfl

/-- C7: for a model with at least one link (all links derived, material
numbers present, as every imported model has), the link written out as
longest is the first link of maximal length: it lies in the link list,
every length is at most its length `L`, and every link strictly before it
has length strictly below `L` (strict greater-than comparison, first link
wins ties). -/
theorem displayReport_longest (m : TrussModel)
    (hsf : m.material.staticFactor.isSome) (huts : m.material.uts.isSome)
    (hys : m.material.ys.isSome) (hE : m.material.E.isSome)
    (hlk : ∀ l ∈ m.links, l.length.isSome ∧ l.angleRad.isSome)
    (hne : m.links ≠ []) :
    ∃ res L pre post,
      displayReport m = some res ∧
      res.length = some L ∧
      m.links = pre ++ res :: post ∧
      (∀ l ∈ m.links, ∀ x, l.length = some x → x ≤ L) ∧
      (∀ l ∈ pre, ∀ x, l.length = some x → x < L) := by
  obtain ⟨sf, hsf'⟩ := Option.isSome_iff_exists.mp hsf
  obtain ⟨u, hu'⟩ := Option.isSome_iff_exists.mp huts
  obtain ⟨yy, hy'⟩ := Option.isSome_iff_exists.mp hys
  obtain ⟨e, he'⟩ := Option.isSome_iff_exists.mp hE
  cases hlinks : m.links with
  | nil => exact absurd hlinks hne
  | cons l0 rest =>
    rw [hlinks] at hlk
    obtain ⟨ll0, hll0⟩ :=
      Option.isSome_iff_exists.mp (hlk l0 (List.mem_cons_self _ _)).1
    obtain ⟨la0, hla0⟩ :=
      Option.isSome_iff_exists.mp (hlk l0 (List.mem_cons_self _ _)).2
    have hstep0 : longestStep none l0 = some (some l0) := by
      simp only [longestStep]
      rw [hll0, hla0]
    obtain ⟨res, L, pre, post, h1, h2, h3, h4, h5, h6⟩ :=
      longestFold_max rest l0 ll0 hll0 (fun a ha => hlk a (List.mem_cons_of_mem _ ha))
    refine ⟨res, L, pre, post, ?_, h2, ?_, ?_, h6⟩
    · unfold displayReport
      rw [hsf', hu', hy', he', hlinks]
      simp only [Option.some_bind]
      have hfold : longestFold none (l0 :: rest) = some (some res) := by
        simp only [longestFold]
        rw [hstep0]
        exact h1
      rw [hfold]
      rfl
    · exact h3
    · intro a ha x hx
      rcases List.mem_cons.mp ha with hh | hh
      · subst hh
        rw [hll0] at hx
        injection hx with hx'
        subst hx'
        exact h4
      · exact h5 a hh x hx

/-- Witness for C7: among concrete links of lengths 5, 10 and 7 the
length-10 link is the one identified as longest. -/
theorem displayReport_longest_witness :
    displayReport reportModel = some linkTen := by
  have hlk : ∀ l ∈ reportModel.links, l.length.isSome ∧ l.angleRad.isSome := by
    intro l hl
    have hl' : l ∈ [linkFive, linkTen, linkSeven] := hl
    simp only [List.mem_cons, List.not_mem_nil, or_false] at hl'
    rcases hl' with h | h | h <;> subst h <;> exact ⟨rfl, rfl⟩
  have hne : reportModel.links ≠ [] := by simp [reportModel]
  obtain ⟨res, L, pre, post, h1, h2, h3, h4, h5⟩ :=
    displayReport_longest reportModel rfl rfl rfl rfl hlk hne
  have h10 : (10 : ℝ) ≤ L := h4 linkTen (by simp [reportModel]) 10 rfl
  have h3' : [linkFive, linkTen, linkSeven] = pre ++ res :: post := h3
  rcases pre with _ | ⟨a1, _ | ⟨a2, _ | ⟨a3, pre'⟩⟩⟩
  · simp only [List.nil_append] at h3'
    injection h3' with e1 e2
    rw [← e1] at h2
    have h2' : some (5 : ℝ) = some L := h2
    injection h2' with hL
    exact absurd h10 (by rw [← hL]; norm_num)
  · simp only [List.cons_append, List.nil_append] at h3'
    injection h3' with e1 h3a
    injection h3a with e2 e3
    rw [← e2] at h1
    exact h1
  · simp only [List.cons_append, List.nil_append] at h3'
    injection h3' with e1 h3a
    injection h3a with e2 h3b
    injection h3b with e3 e4
    rw [← e3] at h2
    have h2' : some (7 : ℝ) = some L := h2
    injection h2' with hL
    exact absurd h10 (by rw [← hL]; norm_num)
  · simp only [List.cons_append] at h3'
    injection h3' with e1 h3a
    injection h3a with e2 h3b
    injection h3b with e3 h3c
    rcases pre' with _ | ⟨b, pre''⟩ <;> simp at h3c

/-! ## Claims about the vector class -/

/-- Magnitude of an in-plane unit-length fixture. -/
theorem mag_unit (x y : ℝ) (h : x ^ 2 + y ^ 2 = 1) :
    Position.mag ⟨x, y, 0⟩ = 1 := by
  unfold Position.mag
  show Real.sqrt (x ^ 2 + y ^ 2 + 0 ^ 2) = 1
  rw [show x ^ 2 + y ^ 2 + 0 ^ 2 = 1 by rw [← h]; ring]
  exact Real.sqrt_one

/-- C2: the in-plane angle is `0` when the magnitude is not positive,
`acos(x/mag)` when `y ≥ 0` and `2π − acos(x/mag)` when `y < 0`; on the
four axis unit vectors this yields `0`, `π/2`, `π` and `3π/2`. -/
theorem getAngleRad_spec :
    (∀ p : Position, p.mag ≤ 0 → p.getAngleRad = 0) ∧
    (∀ p : Position, 0 < p.mag → 0 ≤ p.y →
        p.getAngleRad = Real.arccos (p.x / p.mag)) ∧
    (∀ p : Position, 0 < p.mag → p.y < 0 →
        p.getAngleRad = 2 * Real.pi - Real.arccos (p.x / p.mag)) ∧
    Position.getAngleRad ⟨1, 0, 0⟩ = 0 ∧
    Position.getAngleRad ⟨0, 1, 0⟩ = Real.pi / 2 ∧
    Position.getAngleRad ⟨-1, 0, 0⟩ = Real.pi ∧
    Position.getAngleRad ⟨0, -1, 0⟩ = 3 * Real.pi / 2 := by
  have hbranch0 : ∀ p : Position, p.mag ≤ 0 → p.getAngleRad = 0 := by
    intro p h
    unfold Position.getAngleRad
    rw [if_pos h]
  have hbranch1 : ∀ p : Position, 0 < p.mag → 0 ≤ p.y →
      p.getAngleRad = Real.arccos (p.x / p.mag) := by
    intro p h hy
    unfold Position.getAngleRad
    rw [if_neg (not_le.mpr h), if_pos hy]
  have hbranch2 : ∀ p : Position, 0 < p.mag → p.y < 0 →
      p.getAngleRad = 2 * Real.pi - Real.arccos (p.x / p.mag) := by
    intro p h hy
    unfold Position.getAngleRad
    rw [if_neg (not_le.mpr h), if_neg (not_le.mpr hy)]
  have m1 : Position.mag ⟨1, 0, 0⟩ = 1 := mag_unit 1 0 (by norm_num)
  have m2 : Position.mag ⟨0, 1, 0⟩ = 1 := mag_unit 0 1 (by norm_num)
  have m3 : Position.mag ⟨-1, 0, 0⟩ = 1 := mag_unit (-1) 0 (by norm_num)
  have m4 : Position.mag ⟨0, -1, 0⟩ = 1 := mag_unit 0 (-1) (by norm_num)
  refine ⟨hbranch0, hbranch1, hbranch2, ?_, ?_, ?_, ?_⟩
  · rw [hbranch1 ⟨1, 0, 0⟩ (by rw [m1]; norm_num) (by norm_num), m1]
    norm_num [Real.arccos_one]
  · rw [hbranch1 ⟨0, 1, 0⟩ (by rw [m2]; norm_num) (by norm_num), m2]
    norm_num [Real.arccos_zero]
  · rw [hbranch1 ⟨-1, 0, 0⟩ (by rw [m3]; norm_num) (by norm_num), m3]
    norm_num [Real.arccos_neg_one]
  · rw [hbranch2 ⟨0, -1, 0⟩ (by rw [m4]; norm_num) (by norm_num), m4]
    norm_num [Real.arccos_zero]
    ring

/-- Witness for C2: the zero vector has magnitude `0 ≤ 0` and angle `0`. -/
theorem getAngleRad_spec_witness :
    Position.getAngleRad ⟨0, 0, 0⟩ = 0 :=
  getAngleRad_spec.1 ⟨0, 0, 0⟩ (by unfold Position.mag; norm_num [Real.sqrt_zero])

/-- C9: `normalize` leaves the vector unchanged when the magnitude is not
positive, and otherwise divides each component by the (then nonzero)
magnitude — it never divides by zero. -/
theorem normalize_spec :
    (∀ p : Position, p.mag ≤ 0 → p.normalize = p) ∧
    (∀ p : Position, 0 < p.mag →
        p.normalize = ⟨p.x / p.mag, p.y / p.mag, p.z / p.mag⟩ ∧ p.mag ≠ 0) := by
  constructor
  · intro p h
    unfold Position.normalize
    rw [if_pos h]
  · intro p h
    refine ⟨?_, ne_of_gt h⟩
    unfold Position.normalize Position.idiv
    rw [if_neg (not_le.mpr h)]

/-- Witness for C9: normalizing the zero vector is a no-op. -/
theorem normalize_spec_witness :
    Position.normalize ⟨0, 0, 0⟩ = ⟨0, 0, 0⟩ :=
  normalize_spec.1 ⟨0, 0, 0⟩ (by unfold Position.mag; norm_num [Real.sqrt_zero])

/-! ## Claims about link semantics -/

/-- C8: link equality compares the endpoint node names, the length and
the angle, and is independent of the own names of the two links. -/
theorem linkEq_ignores_name :
    ∀ a b : Link,
      (linkEq a b ↔ a.node1_Name = b.node1_Name ∧ a.node2_Name = b.node2_Name ∧
        a.length = b.length ∧ a.angleRad = b.angleRad) ∧
      (∀ n1 n2 : String,
        linkEq { a with name := n1 } { b with name := n2 } ↔ linkEq a b) :=
  fun _ _ => ⟨Iff.rfl, fun _ _ => Iff.rfl⟩

/-- Witness for C8: two links with different names but the same endpoint
names, length and angle compare equal. -/
theorem linkEq_ignores_name_witness :
    linkEq ⟨"X", "A", "B", some 5, some 0⟩ ⟨"Y", "A", "B", some 5, some 0⟩ :=
  (linkEq_ignores_name ⟨"X", "A", "B", some 5, some 0⟩
    ⟨"Y", "A", "B", some 5, some 0⟩).1.mpr ⟨rfl, rfl, rfl, rfl⟩

/-- C10: the `Link` constructor ignores its `name`, `length` and
`angleRad` arguments — the fresh link always has name `""` and unset
length and angle, and only the two node-name arguments take effect. -/
theorem link_init_ignores_args :
    ∀ (name node1 node2 : String) (length angleRad : Option ℝ),
      Link.init name node1 node2 length angleRad =
        ⟨"", node1, node2, none, none⟩ :=
  fun _ _ _ _ _ => rfl

/-! ## Claims about the importer -/

/-- C3: importing node `A` at `(0,0)`, node `B` at `(3,4)` and link
`L1, A, B`, then deriving geometry, yields one link named `L1` joining
`A` and `B` whose length is exactly `5`. -/
theorem import_link_length_five :
    ∃ mdl lk, ImportFromFile TrussModel.init linesTriangle = some mdl ∧
      mdl.links = [lk] ∧ lk.name = "L1" ∧ lk.node1_Name = "A" ∧
      lk.node2_Name = "B" ∧ lk.length = some 5 := by
  refine ⟨⟨none,
    [⟨"L1", "A", "B", some (Position.mag (posQ 3 4 - posQ 0 0)),
      some (Position.getAngleRad (posQ 3 4 - posQ 0 0))⟩],
    [⟨"A", posQ 0 0⟩, ⟨"B", posQ 3 4⟩], ⟨none, none, none, some 0⟩⟩,
    ⟨"L1", "A", "B", some (Position.mag (posQ 3 4 - posQ 0 0)),
      some (Position.getAngleRad (posQ 3 4 - posQ 0 0))⟩,
    rfl, rfl, rfl, rfl, rfl, ?_⟩
  have hm : Position.mag (posQ 3 4 - posQ 0 0) = 5 := by
    unfold Position.mag posQ
    show Real.sqrt ((((3:ℚ):ℝ) - ((0:ℚ):ℝ)) ^ 2 + (((4:ℚ):ℝ) - ((0:ℚ):ℝ)) ^ 2 +
      ((0:ℝ) - 0) ^ 2) = 5
    norm_num
    rw [show ((25:ℝ)) = 5 ^ 2 by norm_num,
      Real.sqrt_sq (by norm_num : (0:ℝ) ≤ 5)]
  rw [hm]

/-- C4: a link line whose node names are not both present at scan time is
silently dropped (the helper returns the model unchanged, no error), and
it is never retried: with the link line first, the final model still has
no links even though both nodes appear later in the input. -/
theorem importLink_dangling_dropped :
    (∀ (m : TrussModel) (line : String) (key p1 p2 p3 : List Char)
        (rest : List (List Char)),
        pySplitWs (pyStrip line.data) = key :: p1 :: p2 :: p3 :: rest →
        (hasNode m (String.mk (stripChar ',' p2)) = false ∨
          hasNode m (String.mk (stripChar ',' p3)) = false) →
        importLink m line = some m) ∧
    (∃ mdl, ImportFromFile TrussModel.init linesLinkFirst = some mdl ∧
      mdl.links = [] ∧ hasNode mdl "A" = true ∧ hasNode mdl "B" = true) := by
  constructor
  · intro m line key p1 p2 p3 rest hsplit hmiss
    unfold importLink
    rw [hsplit]
    rcases hmiss with h | h <;> simp [h]
  · exact ⟨⟨none, [], [⟨"A", posQ 0 0⟩, ⟨"B", posQ 3 4⟩],
      ⟨none, none, none, some 0⟩⟩, rfl, rfl, rfl, rfl⟩

/-- Witness for C4: on the fresh empty model, a link line referencing the
absent nodes `A` and `B` leaves the model unchanged. -/
theorem importLink_dangling_dropped_witness :
    importLink TrussModel.init "link L1, A, B" = some TrussModel.init :=
  importLink_dangling_dropped.1 TrussModel.init "link L1, A, B" _ _ _ _ _ rfl
    (Or.inl rfl)

/-- C5: a node line whose name is already present is skipped (no error,
first occurrence wins), nodes already imported survive any further scan
in place and unchanged, node names stay duplicate-free, and the concrete
duplicate input keeps exactly the first position. -/
theorem importNode_first_wins :
    (∀ (m : TrussModel) (line : String) (key p1 : List Char)
        (rest : List (List Char)),
        (pySplitOn ',' (pyStrip line.data)).map pyStrip = key :: p1 :: rest →
        hasNode m (String.mk p1) = true →
        importNode m line = some m) ∧
    (∀ (data : List String) (m m' : TrussModel),
        processLines m data = some m' → m.nodes <+: m'.nodes) ∧
    (∀ (data : List String) (m m' : TrussModel),
        processLines m data = some m' →
        (m.nodes.map Node.name).Nodup → (m'.nodes.map Node.name).Nodup) ∧
    (∃ mdl n, ImportFromFile TrussModel.init linesDupNode = some mdl ∧
      mdl.nodes = [n] ∧ n.name = "A" ∧ n.position.x = 1 ∧ n.position.y = 2) := by
  refine ⟨?_, processLines_nodes_prefix, processLines_nodes_nodup, ?_⟩
  · intro m line key p1 rest hsplit hhas
    unfold importNode
    rw [hsplit]
    rcases rest with _ | ⟨p2, _ | ⟨p3, rest2⟩⟩
    · rfl
    · rfl
    · simp [hhas]
  · refine ⟨⟨none, [], [⟨"A", posQ 1 2⟩], ⟨none, none, none, some 0⟩⟩,
      ⟨"A", posQ 1 2⟩, rfl, rfl, rfl, ?_, ?_⟩
    · show ((1:ℚ):ℝ) = 1
      norm_num
    · show ((2:ℚ):ℝ) = 2
      norm_num

/-- Witness for C5: a second `A` node line on a model already holding a
node `A` leaves the model unchanged. -/
theorem importNode_first_wins_witness :
    importNode ⟨none, [], [⟨"A", posQ 1 2⟩], ⟨none, none, none, some 0⟩⟩
        "node, A, 3, 4" =
      some ⟨none, [], [⟨"A", posQ 1 2⟩], ⟨none, none, none, some 0⟩⟩ :=
  importNode_first_wins.1
    ⟨none, [], [⟨"A", posQ 1 2⟩], ⟨none, none, none, some 0⟩⟩
    "node, A, 3, 4" _ _ _ rfl rfl

/-- C6: the import fully resets the model before repopulating — the reset
clears nodes, links and title, sets the strength fields to `None` and the
static factor to `0`, so the import result never depends on the previous
model state and the rebuilt model starts from the cleared one. -/
theorem importFromFile_resets :
    (∀ m : TrussModel,
      resetModel m = ⟨none, [], [], ⟨none, none, none, some 0⟩⟩) ∧
    (∀ (m1 m2 : TrussModel) (data : List String),
      ImportFromFile m1 data = ImportFromFile m2 data) ∧
    (∀ (m : TrussModel) (data : List String),
      ImportFromFile m data =
        (processLines ⟨none, [], [], ⟨none, none, none, some 0⟩⟩ data).map
          calcLinkVals) :=
  ⟨fun _ => rfl, fun _ _ _ => rfl, fun _ _ => rfl⟩
